import Mathlib

/-!
Verification development for the web3-career-bot aggregation pipeline.

The Python sources (boards.py, filters.py, storage.py) are shallowly
embedded: strings are lists of characters (wrapped in String where the
source passes str values), machine arithmetic is Nat/Int with explicit
reduction modulo 2 ^ 32 where the SHA-256 core overflows, fallible
operations return Option or Except, and the SQLite ledger is an explicit
list of rows threaded through each operation.  Network fetching and HTML
parsing are not embedded: adapters that fan out over several remote pages
take the per-page outcome (a success carrying the parsed rows, or an
error standing for any raised exception) as input, exactly at the
boundary where the source wraps the page fetch in try/except.
-/

/-! ## Python string primitives

Helpers modelling the Python str methods used by the sources.  They are
stated on List Char; String values are converted at the edges. -/

/-- Whitespace characters recognised by the Python str.strip method
(the ASCII whitespace set). -/
def isPySpace (c : Char) : Bool :=
  c = ' ' || c = '\t' || c = '\n' || c = '\r' || c = '\x0b' || c = '\x0c'

/-- Models Python str.strip: remove leading and trailing whitespace. -/
def pyStrip (l : List Char) : List Char :=
  ((l.dropWhile isPySpace).reverse.dropWhile isPySpace).reverse

/-- Models Python str.lower on the ASCII range (the titles and locations
processed by the filters are ASCII). -/
def pyLower (l : List Char) : List Char :=
  l.map Char.toLower

/-- Models Python html.unescape restricted to the basic named and numeric
character references; a string containing no reference is returned
unchanged, as in the library. -/
def unescape : List Char → List Char
  | '&' :: 'a' :: 'm' :: 'p' :: ';' :: rest => '&' :: unescape rest
  | '&' :: 'l' :: 't' :: ';' :: rest => '<' :: unescape rest
  | '&' :: 'g' :: 't' :: ';' :: rest => '>' :: unescape rest
  | '&' :: 'q' :: 'u' :: 'o' :: 't' :: ';' :: rest => '"' :: unescape rest
  | '&' :: '#' :: '3' :: '9' :: ';' :: rest => '\'' :: unescape rest
  | '&' :: '#' :: 'x' :: '2' :: '7' :: ';' :: rest => '\'' :: unescape rest
  | c :: rest => c :: unescape rest
  | [] => []

/-- Models the Python substring test (needle in hay): true when needle is
a contiguous infix of hay.  The empty needle is an infix of everything,
as in Python. -/
def isSub (needle : List Char) : List Char → Bool
  | [] => needle.isPrefixOf []
  | c :: t => needle.isPrefixOf (c :: t) || isSub needle t

/-! ## Record model (boards.py)

The Job dataclass and the deterministic identity function _make_id,
which is hashlib.sha256(url.encode()).hexdigest()[:16].  SHA-256 is
embedded in full (FIPS 180-4) over Nat with explicit reduction modulo
2 ^ 32, together with the UTF-8 encoding of the URL. -/

/-- The Job dataclass of boards.py. -/
structure Job where
  id : String
  title : String
  company : String
  location : String
  url : String
  source : String
  salary : String := ""
  posted : String := ""
deriving DecidableEq, Repr

/-- UTF-8 encoding of one character, modelling Python str.encode. -/
def utf8Char (c : Char) : List Nat :=
  let n := c.toNat
  if n < 128 then [n]
  else if n < 2048 then [192 ||| (n >>> 6), 128 ||| (n &&& 63)]
  else if n < 65536 then
    [224 ||| (n >>> 12), 128 ||| ((n >>> 6) &&& 63), 128 ||| (n &&& 63)]
  else
    [240 ||| (n >>> 18), 128 ||| ((n >>> 12) &&& 63),
     128 ||| ((n >>> 6) &&& 63), 128 ||| (n &&& 63)]

/-- UTF-8 encoding of a string as a byte list. -/
def utf8Encode (l : List Char) : List Nat :=
  l.flatMap utf8Char

/-- Wordsize modulus of the SHA-256 core. -/
def M32 : Nat := 4294967296

/-- Rotation of a 32-bit word to the right by n bit positions. -/
def rotr (n x : Nat) : Nat :=
  ((x >>> n) ||| (x <<< (32 - n))) % M32

/-- Bitwise complement of a 32-bit word. -/
def bnot32 (x : Nat) : Nat := x ^^^ (M32 - 1)

/-- SHA-256 big sigma 0. -/
def bsig0 (x : Nat) : Nat := rotr 2 x ^^^ rotr 13 x ^^^ rotr 22 x

/-- SHA-256 big sigma 1. -/
def bsig1 (x : Nat) : Nat := rotr 6 x ^^^ rotr 11 x ^^^ rotr 25 x

/-- SHA-256 small sigma 0. -/
def ssig0 (x : Nat) : Nat := rotr 7 x ^^^ rotr 18 x ^^^ (x >>> 3)

/-- SHA-256 small sigma 1. -/
def ssig1 (x : Nat) : Nat := rotr 17 x ^^^ rotr 19 x ^^^ (x >>> 10)

/-- SHA-256 choice function. -/
def chF (x y z : Nat) : Nat := (x &&& y) ^^^ (bnot32 x &&& z)

/-- SHA-256 majority function. -/
def majF (x y z : Nat) : Nat := (x &&& y) ^^^ (x &&& z) ^^^ (y &&& z)

/-- The 64 round constants of FIPS 180-4 section 4.2.2, written in
decimal. -/
def K256 : List Nat :=
  [1116352408, 1899447441, 3049323471, 3921009573, 961987163,
   1508970993, 2453635748, 2870763221, 3624381080, 310598401,
   607225278, 1426881987, 1925078388, 2162078206, 2614888103,
   3248222580, 3835390401, 4022224774, 264347078, 604807628,
   770255983, 1249150122, 1555081692, 1996064986, 2554220882,
   2821834349, 2952996808, 3210313671, 3336571891, 3584528711,
   113926993, 338241895, 666307205, 773529912, 1294757372,
   1396182291, 1695183700, 1986661051, 2177026350, 2456956037,
   2730485921, 2820302411, 3259730800, 3345764771, 3516065817,
   3600352804, 4094571909, 275423344, 430227734, 506948616,
   659060556, 883997877, 958139571, 1322822218, 1537002063,
   1747873779, 1955562222, 2024104815, 2227730452, 2361852424,
   2428436474, 2756734187, 3204031479, 3329325298]

/-- The eight-word SHA-256 state. -/
structure H8 where
  a : Nat
  b : Nat
  c : Nat
  d : Nat
  e : Nat
  f : Nat
  g : Nat
  h : Nat

/-- The initial hash value of FIPS 180-4 section 5.3.3, written in
decimal. -/
def H0 : H8 :=
  ⟨1779033703, 3144134277, 1013904242, 2773480762,
   1359893119, 2600822924, 528734635, 1541459225⟩

/-- Big-endian eight-byte encoding of the message bit length. -/
def lenBytes8 (bits : Nat) : List Nat :=
  [bits >>> 56 % 256, bits >>> 48 % 256, bits >>> 40 % 256, bits >>> 32 % 256,
   bits >>> 24 % 256, bits >>> 16 % 256, bits >>> 8 % 256, bits % 256]

/-- SHA-256 message padding: a 0x80 byte, zeros to 56 mod 64, then the
bit length. -/
def padMsg (msg : List Nat) : List Nat :=
  let L := msg.length
  let k := (119 - L % 64) % 64
  msg ++ [128] ++ List.replicate k 0 ++ lenBytes8 (8 * L)

/-- Splits the padded message into 64-byte blocks. -/
def toBlocks : List Nat → List (List Nat)
  | [] => []
  | x :: rest => ((x :: rest).take 64) :: toBlocks (rest.drop 63)
termination_by l => l.length
decreasing_by simp [List.length_drop]; omega

/-- Packs bytes into big-endian 32-bit words. -/
def toWords : List Nat → List Nat
  | b0 :: b1 :: b2 :: b3 :: rest =>
    (b0 * 16777216 + b1 * 65536 + b2 * 256 + b3) :: toWords rest
  | _ => []

/-- Extends the 16 block words by n scheduled words. -/
def sched (w : List Nat) : Nat → List Nat
  | 0 => w
  | n + 1 =>
    sched (w ++ [(ssig1 (w.getD (w.length - 2) 0) + w.getD (w.length - 7) 0 +
      ssig0 (w.getD (w.length - 15) 0) + w.getD (w.length - 16) 0) % M32]) n

/-- One SHA-256 compression round for a constant/schedule pair. -/
def round256 (st : H8) (kw : Nat × Nat) : H8 :=
  let t1 := (st.h + bsig1 st.e + chF st.e st.f st.g + kw.1 + kw.2) % M32
  let t2 := (bsig0 st.a + majF st.a st.b st.c) % M32
  ⟨(t1 + t2) % M32, st.a, st.b, st.c, (st.d + t1) % M32, st.e, st.f, st.g⟩

/-- Compression of one 64-byte block into the running state. -/
def compressBlock (st : H8) (block : List Nat) : H8 :=
  let w := sched (toWords block) 48
  let f := (K256.zip w).foldl round256 st
  ⟨(st.a + f.a) % M32, (st.b + f.b) % M32, (st.c + f.c) % M32,
   (st.d + f.d) % M32, (st.e + f.e) % M32, (st.f + f.f) % M32,
   (st.g + f.g) % M32, (st.h + f.h) % M32⟩

/-- SHA-256 of a byte list. -/
def sha256 (msg : List Nat) : H8 :=
  (toBlocks (padMsg msg)).foldl compressBlock H0

/-- Lower-case hexadecimal digit. -/
def hexDigit (n : Nat) : Char :=
  if n < 10 then Char.ofNat (48 + n) else Char.ofNat (87 + n)

/-- Eight lower-case hex characters of one 32-bit word. -/
def word8hex (w : Nat) : List Char :=
  [hexDigit (w / 268435456 % 16), hexDigit (w / 16777216 % 16),
   hexDigit (w / 1048576 % 16), hexDigit (w / 65536 % 16),
   hexDigit (w / 4096 % 16), hexDigit (w / 256 % 16),
   hexDigit (w / 16 % 16), hexDigit (w % 16)]

/-- Models hashlib hexdigest: the 64 hex characters of the final state. -/
def sha256hex (msg : List Nat) : List Char :=
  let s := sha256 msg
  word8hex s.a ++ word8hex s.b ++ word8hex s.c ++ word8hex s.d ++
  word8hex s.e ++ word8hex s.f ++ word8hex s.g ++ word8hex s.h

/-- Embeds _make_id of boards.py: the first 16 hex characters of the
SHA-256 digest of the UTF-8 encoded URL. -/
def _make_id (url : String) : String :=
  String.mk ((sha256hex (utf8Encode url.toList)).take 16)

/-! ## Title/company splitting and the duplicate key (boards.py) -/

/-- Splits a list at the last occurrence of sep, modelling Python
str.rsplit(sep, 1): some (before, after) for the rightmost occurrence,
none when sep does not occur. -/
def rsplitOnceAux (sep : List Char) : List Char → Option (List Char × List Char)
  | [] => none
  | c :: t =>
    match rsplitOnceAux sep t with
    | some (a, b) => some (c :: a, b)
    | none =>
      if sep.isPrefixOf (c :: t) then some ([], (c :: t).drop sep.length)
      else none

/-- Embeds _split_title_company of boards.py: HTML-decode, then split on
the last occurrence of the separator, stripping both parts; without a
separator the whole stripped string is the title and the company is
empty. -/
def _split_title_company (raw : String) : String × String :=
  match rsplitOnceAux " at ".toList (unescape raw.toList) with
  | some (a, b) => (String.mk (pyStrip a), String.mk (pyStrip b))
  | none => (String.mk (pyStrip (unescape raw.toList)), "")

/-- Decides whether a suffix matches the regex fragment used by
_title_company_key, a trailing parenthetical: optional whitespace, an
opening parenthesis, a lazily matched body that cannot cross a newline,
a closing parenthesis, then only whitespace to the end. -/
def parenTailFrom (l : List Char) : Bool :=
  match l.dropWhile isPySpace with
  | '(' :: rest => parenClose rest
  | _ => false
where
  /-- Scans for a closing parenthesis followed only by whitespace, never
  crossing a newline (the regex dot does not match a newline). -/
  parenClose : List Char → Bool
    | [] => false
    | ')' :: rest => (rest.all isPySpace) || parenClose rest
    | '\n' :: _ => false
    | _ :: rest => parenClose rest

/-- Position of the leftmost match of the trailing-parenthetical regex,
modelling re.sub scanning left to right. -/
def parenSubPos (l : List Char) : Option Nat :=
  (List.range (l.length + 1)).find? (fun p => parenTailFrom (l.drop p))

/-- Removes the trailing parenthetical, modelling
re.sub of a trailing-parenthetical pattern with the empty string. -/
def stripParenTail (l : List Char) : List Char :=
  match parenSubPos l with
  | some p => l.take p
  | none => l

/-- Embeds _title_company_key of boards.py: the normalised duplicate key
catching the same job listed on multiple boards. -/
def _title_company_key (job : Job) : List Char :=
  let t := pyStrip (pyLower (unescape job.title.toList))
  let c := pyStrip (pyLower (unescape job.company.toList))
  let t2 := pyStrip (stripParenTail t)
  t2 ++ "||".toList ++ c

/-! ## Aggregation (fetch_all of boards.py)

fetch_all iterates the declared boards in order, keeping a set of seen
identities and a set of seen duplicate keys; both sets are embedded as
the lists of values inserted so far. -/

/-- Loop of fetch_all: each job is appended only when its id is not in
the seen-id set and its duplicate key is not in the seen-key set. -/
def fetchAllGo : List Job → List Job → List String → List (List Char) → List Job
  | [], acc, _, _ => acc
  | j :: rest, acc, seenIds, seenKeys =>
    if j.id ∈ seenIds ∨ _title_company_key j ∈ seenKeys then
      fetchAllGo rest acc seenIds seenKeys
    else
      fetchAllGo rest (acc ++ [j]) (j.id :: seenIds)
        (_title_company_key j :: seenKeys)

/-- Embeds fetch_all of boards.py over the per-board results, processed
in the fixed declared board order. -/
def fetch_all (boards : List (List Job)) : List Job :=
  fetchAllGo boards.flatten [] [] []

/-- Specification-side dedup step: append a record exactly when no
record already appended shares its identity or its duplicate key (the
novelty condition the spec states for the aggregation engine). -/
def specDedupStep (acc : List Job) (j : Job) : List Job :=
  if ∃ x ∈ acc, x.id = j.id ∨ _title_company_key x = _title_company_key j then acc
  else acc ++ [j]

/-! ## Filter engine (filters.py)

Role presets, exclusion phrases, location policy and the age cutoff.
The module-level configuration (JOB_ROLES, LOCATION_TYPE,
PREFERRED_LOCATIONS) is passed as parameters; the source defaults are
roles = ["marketing"], location type "remote", no preferred cities. -/

/-- Age window of filters.py: jobs older than this many days are
skipped. -/
def MAX_AGE_DAYS : Nat := 45

/-- Embeds ROLE_PRESETS of filters.py: built-in include keyword lists
per job category. -/
def ROLE_PRESETS : List (String × List String) :=
  [("marketing",
    ["marketing", "growth marketer", "growth manager", "growth lead",
     "growth director", "community", "content", "brand", "gtm",
     "go-to-market", "partnerships", "kol", "social media",
     "communications", " pr ", "public relations", "customer acquisition",
     "user acquisition", "ambassador", "influencer", "campaign",
     "narrative", "ecosystem", "devrel", "developer relations",
     "demand generation", "product marketing", "growth marketing"]),
   ("engineering",
    ["engineer", "developer", "solidity", "smart contract",
     "blockchain developer", "backend", "frontend", "full stack",
     "fullstack", "rust developer", "typescript developer",
     "web3 developer", "protocol engineer", "infrastructure engineer",
     "dapp", "evm", "zkp", "zero knowledge", "cryptography engineer"]),
   ("legal",
    ["legal", "compliance", "counsel", "regulatory", "policy",
     "general counsel", "legal officer", "chief legal"]),
   ("design",
    ["designer", " design", "ux ", "ui/ux", "ui ", "product design",
     "visual design", "graphic designer", "creative director",
     "motion designer"]),
   ("product",
    ["product manager", "product lead", "head of product",
     "product owner", "chief product", "vp product", "product director"]),
   ("operations",
    ["operations manager", "ops manager", "chief of staff",
     "finance manager", "people operations", "head of operations",
     "treasury", "financial controller"]),
   ("bd",
    ["business development", "bd manager", "bd lead", "head of bd",
     "account executive", "account manager", "revenue",
     "partner manager", "head of sales", "sales manager",
     "partnerships manager"]),
   ("research",
    ["researcher", "research analyst", "protocol researcher",
     "security researcher", "economist", "quantitative researcher",
     "cryptographer", "defi researcher"]),
   ("data",
    ["data analyst", "data scientist", "data engineer",
     "analytics engineer", "business intelligence", "data lead",
     "head of data", "quantitative analyst"])]

/-- Embeds ROLE_EXCLUDE_PHRASES of filters.py: per-role exclusion
phrases applied only when that role is selected. -/
def ROLE_EXCLUDE_PHRASES : List (String × List String) :=
  [("marketing",
    ["frontend engineer", "backend engineer", "software engineer",
     "engineering manager", "engineering director", "data engineer",
     "principal engineer", "algorithm engineer", "content delivery",
     "content moderator", "content moderation", "human resources",
     "hr lead", "hr manager", "recruiting", "recruiter", "legal counsel",
     "risk manager", "financial analyst", "data analyst",
     "data scientist", "machine learning", "qa engineer", "qa lead",
     "security engineer", "security analyst", "network engineer",
     "site reliability", "devops"]),
   ("engineering",
    ["marketing manager", "content manager", "community manager",
     "brand manager", "social media manager", "recruiting",
     "recruiter"]),
   ("legal", ["marketing", "engineering", "design", "recruiter"]),
   ("design", ["marketing manager", "engineering", "recruiter"]),
   ("product", ["marketing", "recruiter"]),
   ("operations", ["recruiter", "talent acquisition"]),
   ("bd", ["marketing manager", "engineering", "recruiter"]),
   ("research", ["recruiter", "marketing manager"]),
   ("data", ["recruiter", "marketing manager", "community manager"])]

/-- Order-preserving deduplication, as the seen-set loops of
_build_include_keywords and _build_exclude_phrases perform. -/
def dedupKeep : List String → List String → List String
  | [], _ => []
  | x :: rest, seen =>
    if x ∈ seen then dedupKeep rest seen else x :: dedupKeep rest (x :: seen)

/-- Embeds _build_include_keywords of filters.py: preset keywords of
each selected role, an unknown role name taken as one custom keyword,
deduplicated preserving order. -/
def _build_include_keywords (roles : List String) : List String :=
  dedupKeep
    (roles.flatMap fun r =>
      match ROLE_PRESETS.lookup r with
      | some l => l
      | none => [r]) []

/-- Embeds _build_exclude_phrases of filters.py: the exclusion phrases
registered for the selected roles, deduplicated preserving order. -/
def _build_exclude_phrases (roles : List String) : List String :=
  dedupKeep
    (roles.flatMap fun r =>
      match ROLE_EXCLUDE_PHRASES.lookup r with
      | some l => l
      | none => []) []

/-- Embeds _decode followed by .lower(): the normalised title text the
role checks run on. -/
def normText (s : String) : List Char :=
  pyLower (unescape s.toList)

/-- Embeds _matches_include of filters.py. -/
def _matches_include (roles : List String) (title : String) : Bool :=
  (_build_include_keywords roles).any fun kw => isSub kw.toList (normText title)

/-- Loop of _is_excluded_title: the first matching phrase excludes,
except that the phrase "product manager" is skipped when the title also
contains "product marketing" or "growth marketing". -/
def isExcludedGo (t : List Char) : List String → Bool
  | [] => false
  | p :: rest =>
    if isSub p.toList t then
      if p == "product manager" &&
          (isSub "product marketing".toList t || isSub "growth marketing".toList t)
      then isExcludedGo t rest
      else true
    else isExcludedGo t rest

/-- Embeds _is_excluded_title of filters.py. -/
def _is_excluded_title (roles : List String) (title : String) : Bool :=
  isExcludedGo (normText title) (_build_exclude_phrases roles)

/-- Embeds _REMOTE_KEYWORDS of filters.py. -/
def _REMOTE_KEYWORDS : List String :=
  ["remote", "worldwide", "global", "anywhere", "distributed"]

/-- Embeds US_RESTRICTED_PATTERNS of filters.py: excluded even when they
mention remote. -/
def US_RESTRICTED_PATTERNS : List String :=
  ["us only", "us citizen", "must be in us", "us work authorization",
   "remote - usa", "remote, usa", "remote - us", "remote, us",
   "us / remote", "remote (us)", "remote (usa)", "remote (united states)",
   "united states", "new york", "san francisco", "austin", "los angeles",
   "boston", "chicago", "seattle", "miami", "denver", "nyc", "bay area",
   "silicon valley", "remote - ny", "remote - ca", "california", "texas",
   "washington, d"]

/-- Embeds ONSITE_PATTERNS of filters.py: excluded in remote and
specific modes. -/
def ONSITE_PATTERNS : List String :=
  ["on-site", "onsite", "in-office"]

/-- The local loc of _is_location_allowed: the location HTML-decoded,
lower-cased and stripped. -/
def normLoc (job : Job) : List Char :=
  pyStrip (pyLower (unescape job.location.toList))

/-- Embeds _is_location_allowed of filters.py, with LOCATION_TYPE and
PREFERRED_LOCATIONS passed as parameters. -/
def _is_location_allowed (locType : String) (preferred : List String)
    (job : Job) : Bool :=
  if locType = "any" then true
  else if normLoc job = [] then true
  else if ONSITE_PATTERNS.any (fun p => isSub p.toList (normLoc job)) then false
  else if locType = "remote" then
    if US_RESTRICTED_PATTERNS.any (fun p => isSub p.toList (normLoc job)) then false
    else _REMOTE_KEYWORDS.any (fun kw => isSub kw.toList (normLoc job))
  else if locType = "specific" then
    if _REMOTE_KEYWORDS.any (fun kw => isSub kw.toList (normLoc job)) then
      !(US_RESTRICTED_PATTERNS.any (fun p => isSub p.toList (normLoc job)))
    else preferred.any (fun city => isSub city.toList (normLoc job))
  else false

/-! ## Age cutoff (filters.py)

_parse_posted_date tries, in order: a 13-digit integer as milliseconds
since the epoch, a 10-digit integer as seconds, the fixed strptime
format list (applied to the input truncated to 19 characters, as the
source does), then the mail-header date parser of the standard library.
Datetimes are embedded as milliseconds since the epoch together with a
flag recording whether the value is timezone-aware; the strptime paths
always produce aware values because the source replaces a missing
tzinfo with UTC, but the mail-header path returns a naive value when no
timezone is present, exactly as email.utils.parsedate_to_datetime
does. -/

/-- Numeric value of a digit character. -/
def digitVal (c : Char) : Nat := c.toNat - 48

/-- Value of an all-digit string. -/
def digitsToNat (l : List Char) : Nat :=
  l.foldl (fun acc c => acc * 10 + digitVal c) 0

/-- Gregorian leap year rule. -/
def isLeap (y : Nat) : Bool :=
  (y % 4 == 0 && !(y % 100 == 0)) || y % 400 == 0

/-- Days in a month of the proleptic Gregorian calendar. -/
def daysInMonth (y m : Nat) : Nat :=
  if m = 2 then (if isLeap y then 29 else 28)
  else if m = 4 ∨ m = 6 ∨ m = 9 ∨ m = 11 then 30
  else 31

/-- Days in the months of year y strictly before month m. -/
def cumDays (y m : Nat) : Nat :=
  (List.range (m - 1)).foldl (fun acc i => acc + daysInMonth y (i + 1)) 0

/-- Days from 1 Jan of year 1 to the given civil date. -/
def daysSinceYear1 (y m d : Nat) : Nat :=
  let py := y - 1
  365 * py + py / 4 - py / 100 + py / 400 + cumDays y m + (d - 1)

/-- Seconds since the Unix epoch of a civil datetime with a timezone
offset in seconds. -/
def epochSecs (y m d hh mi ss : Nat) (tzOff : Int) : Int :=
  ((daysSinceYear1 y m d : Int) - (daysSinceYear1 1970 1 1 : Int)) * 86400
    + ((hh * 3600 + mi * 60 + ss : Nat) : Int) - tzOff

/-- Numeric strptime field of one or two digits, following the strptime
regex ranges: a two-digit reading is taken when it lies in [lo2, hi2],
otherwise a one-digit reading at least lo1. -/
def parseField (lo2 hi2 lo1 : Nat) : List Char → Option (Nat × List Char)
  | c1 :: c2 :: rest =>
    if c1.isDigit && c2.isDigit then
      let v := digitVal c1 * 10 + digitVal c2
      if lo2 ≤ v ∧ v ≤ hi2 then some (v, rest)
      else if lo1 ≤ digitVal c1 then some (digitVal c1, c2 :: rest)
      else none
    else if c1.isDigit then
      if lo1 ≤ digitVal c1 then some (digitVal c1, c2 :: rest) else none
    else none
  | [c1] => if c1.isDigit && lo1 ≤ digitVal c1 then some (digitVal c1, []) else none
  | [] => none

/-- Exactly four digits, the strptime year field. -/
def parseYear4 : List Char → Option (Nat × List Char)
  | c1 :: c2 :: c3 :: c4 :: rest =>
    if c1.isDigit && c2.isDigit && c3.isDigit && c4.isDigit then
      some (digitVal c1 * 1000 + digitVal c2 * 100 + digitVal c3 * 10 +
        digitVal c4, rest)
    else none
  | _ => none

/-- One expected literal character. -/
def expectChar (c : Char) : List Char → Option (List Char)
  | x :: rest => if x = c then some rest else none
  | [] => none

/-- The literal T of the ISO formats; strptime matches literals
case-insensitively. -/
def expectT : List Char → Option (List Char)
  | x :: rest => if x = 'T' ∨ x = 't' then some rest else none
  | [] => none

/-- Whitespace in a strptime format matches a run of one or more
whitespace characters. -/
def expectWs : List Char → Option (List Char)
  | c :: rest => if isPySpace c then some (rest.dropWhile isPySpace) else none
  | [] => none

/-- Date part of the ISO formats with the constructor-level validity
check of datetime (a regex match with an invalid day count raises in the
constructor and fails the format either way). -/
def parseDateCore (l : List Char) : Option (Nat × Nat × Nat × List Char) := do
  let (y, r1) ← parseYear4 l
  let r2 ← expectChar '-' r1
  let (m, r3) ← parseField 1 12 1 r2
  let r4 ← expectChar '-' r3
  let (d, r5) ← parseField 1 31 1 r4
  if 1 ≤ y ∧ d ≤ daysInMonth y m then pure (y, m, d, r5) else none

/-- Time part HH:MM:SS of the ISO formats. -/
def parseTimeCore (l : List Char) : Option (Nat × Nat × Nat × List Char) := do
  let (hh, r1) ← parseField 0 23 0 l
  let r2 ← expectChar ':' r1
  let (mi, r3) ← parseField 0 59 0 r2
  let r4 ← expectChar ':' r3
  let (ss, r5) ← parseField 0 59 0 r4
  pure (hh, mi, ss, r5)

/-- Numeric timezone of the strptime z directive. -/
def zNum (s h1 h2 m1 m2 : Char) : Option Int :=
  if (s = '+' ∨ s = '-') ∧ h1.isDigit ∧ h2.isDigit ∧ m1.isDigit ∧ m2.isDigit then
    let mins := digitVal m1 * 10 + digitVal m2
    if mins ≤ 59 then
      let off : Int := ((digitVal h1 * 10 + digitVal h2) * 3600 + mins * 60 : Nat)
      some (if s = '-' then -off else off)
    else none
  else none

/-- Timezone directive of strptime consuming the whole remainder: the
literal Z, or a signed HHMM offset with an optional colon. -/
def parseZOffset : List Char → Option Int
  | ['Z'] => some 0
  | [s, h1, h2, ':', m1, m2] => zNum s h1 h2 m1 m2
  | [s, h1, h2, m1, m2] => zNum s h1 h2 m1 m2
  | _ => none

/-- The ISO formats carrying a timezone directive, with the date/time
separator chosen by useT. -/
def strpTz (useT : Bool) (l : List Char) : Option Int := do
  let (y, m, d, r) ← parseDateCore l
  let r2 ← if useT then expectT r else expectWs r
  let (hh, mi, ss, r3) ← parseTimeCore r2
  let off ← parseZOffset r3
  pure (epochSecs y m d hh mi ss off)

/-- The ISO formats without a timezone; the source replaces the missing
tzinfo with UTC.  strptime requires the whole string consumed. -/
def strpNoTz (useT : Bool) (l : List Char) : Option Int := do
  let (y, m, d, r) ← parseDateCore l
  let r2 ← if useT then expectT r else expectWs r
  let (hh, mi, ss, r3) ← parseTimeCore r2
  if r3 = [] then pure (epochSecs y m d hh mi ss 0) else none

/-- The date-only format, UTC midnight. -/
def strpDateOnly (l : List Char) : Option Int := do
  let (y, m, d, r) ← parseDateCore l
  if r = [] then pure (epochSecs y m d 0 0 0 0) else none

/-- The strptime format chain of _parse_posted_date in source order,
applied to the 19-character truncation.  The second source format ends
in a stray percent after its own truncation and never matches, so it
contributes nothing to the chain. -/
def strpChain (t : List Char) : Option Int :=
  strpTz true t <|> strpTz false t <|> strpNoTz true t <|>
    strpNoTz false t <|> strpDateOnly t

/-- Day-of-week names of the mail-header parser. -/
def rfcDaynames : List (List Char) :=
  ["mon", "tue", "wed", "thu", "fri", "sat", "sun"].map String.toList

/-- Month names of the mail-header parser, short then full; the index of
the first match modulo twelve gives the month. -/
def rfcMonthnames : List (List Char) :=
  (["jan", "feb", "mar", "apr", "may", "jun", "jul", "aug", "sep", "oct",
    "nov", "dec", "january", "february", "march", "april", "may", "june",
    "july", "august", "september", "october", "november", "december"]).map
    String.toList

/-- Splits on runs of whitespace, as Python str.split() does. -/
def splitWsAux : List Char → List Char → List (List Char)
  | [], cur => if cur = [] then [] else [cur.reverse]
  | c :: rest, cur =>
    if isPySpace c then
      if cur = [] then splitWsAux rest [] else cur.reverse :: splitWsAux rest []
    else splitWsAux rest (c :: cur)

/-- Whitespace tokenisation of the mail-header parser. -/
def splitWs (l : List Char) : List (List Char) :=
  splitWsAux l []

/-- The part after the last comma of a token, or the token itself. -/
def afterLastComma (t : List Char) : List Char :=
  match rsplitOnceAux [','] t with
  | some (_, b) => b
  | none => t

/-- Splits a token on colons. -/
def splitColon (l : List Char) : List (List Char) :=
  splitColonAux l []
where
  splitColonAux : List Char → List Char → List (List Char)
    | [], cur => [cur.reverse]
    | ':' :: rest, cur => cur.reverse :: splitColonAux rest []
    | c :: rest, cur => splitColonAux rest (c :: cur)

/-- Known timezone abbreviations of the mail-header parser, in seconds
east of UTC. -/
def rfcTimezone (t : List Char) : Option Int :=
  let u := String.mk (t.map Char.toUpper)
  if u = "UT" ∨ u = "UTC" ∨ u = "GMT" ∨ u = "Z" then some 0
  else if u = "AST" then some (-14400)
  else if u = "ADT" then some (-10800)
  else if u = "EST" then some (-18000)
  else if u = "EDT" then some (-14400)
  else if u = "CST" then some (-21600)
  else if u = "CDT" then some (-18000)
  else if u = "MST" then some (-25200)
  else if u = "MDT" then some (-21600)
  else if u = "PST" then some (-28800)
  else if u = "PDT" then some (-25200)
  else
    match t with
    | '+' :: ds =>
      if ds ≠ [] ∧ ds.all Char.isDigit then
        let v := digitsToNat ds
        some ((v / 100 * 3600 + v % 100 * 60 : Nat))
      else none
    | '-' :: ds =>
      if ds ≠ [] ∧ ds.all Char.isDigit then
        let v := digitsToNat ds
        some (-((v / 100 * 3600 + v % 100 * 60 : Nat) : Int))
      else none
    | _ => none

/-- Index of a month name in the mail-header month list. -/
def rfcMonth (t : List Char) : Option Nat :=
  match rfcMonthnames.findIdx? (fun m => m = pyLower t) with
  | some i => some (if i + 1 > 12 then i + 1 - 12 else i + 1)
  | none => none

/-- Modelled from the Python standard library: the main date form
accepted by email.utils.parsedate_to_datetime, namely an optional
day-of-week token, then day, month name, year, HH:MM or HH:MM:SS, and
an optional timezone token.  Returns milliseconds since the epoch and
whether the result is timezone-aware; as in the library, a missing or
unrecognised timezone yields a NAIVE datetime.  The deprecated RFC 850
dashed-date form is not modelled. -/
def rfc2822ms (l : List Char) : Option (Int × Bool) := do
  let toks0 := splitWs l
  let toks ←
    match toks0 with
    | [] => none
    | t :: rest =>
      if (t.getLast? = some ',') ∨ pyLower t ∈ rfcDaynames then pure rest
      else pure (afterLastComma t :: rest)
  let (ddTok, monTok, yyTok, tmTok, tzTok) ←
    match toks with
    | [a, b, c, d] =>
      match d.findIdx? (fun ch => ch = '+') with
      | some i => if i > 0 then pure (a, b, c, d.take i, d.drop i) else none
      | none =>
        match d.findIdx? (fun ch => ch = '-') with
        | some i => if i > 0 then pure (a, b, c, d.take i, d.drop i) else pure (a, b, c, d, [])
        | none => pure (a, b, c, d, [])
    | a :: b :: c :: d :: e :: _ => pure (a, b, c, d, e)
    | _ => none
  if ddTok = [] ∨ ¬ ddTok.all Char.isDigit then none else
  if yyTok = [] ∨ ¬ yyTok.all Char.isDigit then none else
  let dd := digitsToNat ddTok
  let m ← rfcMonth monTok
  let yy0 := digitsToNat yyTok
  let yy := if yy0 < 100 then (if yy0 > 68 then yy0 + 1900 else yy0 + 2000) else yy0
  let (hh, mi, ss) ←
    match splitColon tmTok with
    | [a, b] =>
      if a ≠ [] ∧ b ≠ [] ∧ a.all Char.isDigit ∧ b.all Char.isDigit then
        pure (digitsToNat a, digitsToNat b, 0)
      else none
    | [a, b, c] =>
      if a ≠ [] ∧ b ≠ [] ∧ c ≠ [] ∧ a.all Char.isDigit ∧ b.all Char.isDigit ∧
          c.all Char.isDigit then
        pure (digitsToNat a, digitsToNat b, digitsToNat c)
      else none
    | _ => none
  if 1 ≤ yy ∧ yy ≤ 9999 ∧ 1 ≤ dd ∧ dd ≤ daysInMonth yy m ∧ hh ≤ 23 ∧
      mi ≤ 59 ∧ ss ≤ 59 then
    match if tzTok = [] then none else rfcTimezone tzTok with
    | some off => pure (epochSecs yy m dd hh mi ss off * 1000, true)
    | none => pure (epochSecs yy m dd hh mi ss 0 * 1000, false)
  else none

/-- Embeds _parse_posted_date of filters.py: milliseconds since the
epoch paired with the timezone-awareness of the produced datetime. -/
def _parse_posted_date (posted : String) : Option (Int × Bool) :=
  let p := pyStrip posted.toList
  if p = [] ∨ p = "None".toList ∨ p = "0".toList then none
  else if p.length = 13 ∧ p.all Char.isDigit then some ((digitsToNat p : Int), true)
  else if p.length = 10 ∧ p.all Char.isDigit then
    some ((digitsToNat p : Int) * 1000, true)
  else
    match strpChain (p.take 19) with
    | some secs => some (secs * 1000, true)
    | none => rfc2822ms p

/-- Embeds _is_too_old of filters.py with the current time passed in
milliseconds since the epoch.  Comparing the naive datetime the
mail-header path can produce against the aware cutoff raises a
TypeError in Python, embedded as the error case. -/
def _is_too_old (job : Job) (now : Int) : Except String Bool :=
  match _parse_posted_date job.posted with
  | none => Except.ok false
  | some (ms, aware) =>
    if aware then
      Except.ok (decide (ms < now - (MAX_AGE_DAYS : Int) * 86400000))
    else
      Except.error "TypeError: cannot compare offset-naive and offset-aware datetimes"

/-- Embeds apply_filters of filters.py: include keywords, exclusion
phrases, location mode, then the age cutoff; a TypeError raised by the
age check aborts the whole pass, as an uncaught Python exception
would. -/
def apply_filters (roles : List String) (locType : String)
    (preferred : List String) (now : Int) : List Job → Except String (List Job)
  | [] => Except.ok []
  | j :: rest =>
    if ¬ _matches_include roles j.title then
      apply_filters roles locType preferred now rest
    else if _is_excluded_title roles j.title then
      apply_filters roles locType preferred now rest
    else if ¬ _is_location_allowed locType preferred j then
      apply_filters roles locType preferred now rest
    else
      match _is_too_old j now with
      | Except.error e => Except.error e
      | Except.ok true => apply_filters roles locType preferred now rest
      | Except.ok false =>
        (apply_filters roles locType preferred now rest).map (j :: ·)

/-! ## Seen ledger (storage.py)

The SQLite table seen_jobs (id primary key, title, url, seen_at) is
embedded as a list of rows threaded through the two operations. -/

/-- One row of the seen_jobs table. -/
structure SeenRow where
  id : String
  title : String
  url : String
  seen_at : String
deriving DecidableEq, Repr

/-- Identities present in the ledger. -/
def ledgerIds (t : List SeenRow) : List String :=
  t.map SeenRow.id

/-- Embeds filter_unseen of storage.py: one bulk query selects the ids
of the table rows whose id is among the candidates, and the jobs whose
id is not in that set are returned in order. -/
def filter_unseen (t : List SeenRow) (jobs : List Job) : List Job :=
  match jobs with
  | [] => []
  | _ =>
    let ids := jobs.map Job.id
    let seen := (ledgerIds t).filter (fun s => ids.contains s)
    jobs.filter (fun j => !(seen.contains j.id))

/-- Embeds mark_seen of storage.py: INSERT OR IGNORE of
(id, title, url, now) for each job, in order; a row whose primary key is
already present, including one inserted earlier in the same call, is
ignored. -/
def mark_seen (t : List SeenRow) (jobs : List Job) (now : String) : List SeenRow :=
  match jobs with
  | [] => t
  | _ =>
    jobs.foldl
      (fun acc j =>
        if (ledgerIds acc).contains j.id then acc
        else acc ++ [⟨j.id, j.title, j.url, now⟩])
      t

/-! ## Fan-out adapters (boards.py)

fetch_web3career iterates four category pages; each page fetch-and-parse
is wrapped in try/except, and rows of successful pages are accumulated
with a per-board id dedup.  fetch_greenhouse iterates the company
registry; each entry is wrapped in try/except and a non-200 status skips
the entry.  The embeddings take the per-page/per-entry outcomes as
input: an error value stands for any exception raised inside the try
block, a success carries the parsed rows. -/

/-- One step of the per-board accumulation of fetch_web3career: append
a page job when its id is new for this board. -/
def w3cStep (st : List Job × List String) (j : Job) : List Job × List String :=
  if st.2.contains j.id then st else (st.1 ++ [j], j.id :: st.2)

/-- Per-board accumulation loop of fetch_web3career over one page. -/
def w3cAdd (st : List Job × List String) (js : List Job) : List Job × List String :=
  js.foldl w3cStep st

/-- Page loop of fetch_web3career: an exception on one page is caught
and the loop continues with the state accumulated so far. -/
def w3cGo : List (Except String (List Job)) → List Job × List String →
    List Job × List String
  | [], st => st
  | Except.error _ :: rest, st => w3cGo rest st
  | Except.ok js :: rest, st => w3cGo rest (w3cAdd st js)

/-- Embeds fetch_web3career of boards.py over the outcomes of its
category pages, in the declared page order. -/
def fetch_web3career (pages : List (Except String (List Job))) : List Job :=
  (w3cGo pages ([], [])).1

/-- One job object of the Greenhouse board API response, reduced to the
fields the adapter reads. -/
structure GhJob where
  absolute_url : String
  title : String
  location_name : String
  first_published : String

/-- Row construction of fetch_greenhouse for one registry entry: jobs
with an empty url are skipped, the rest are mapped to records. -/
def ghEntryJobs (slug companyName : String) (js : List GhJob) : List Job :=
  js.filterMap fun j =>
    if j.absolute_url = "" then none
    else
      some
        { id := _make_id j.absolute_url,
          title := String.mk (unescape (pyStrip j.title.toList)),
          company := companyName,
          location := j.location_name,
          url := j.absolute_url,
          source := "greenhouse/" ++ slug,
          posted := j.first_published }

/-- Embeds fetch_greenhouse of boards.py over the outcomes of the
registry entries: an entry whose fetch raises is caught and skipped, an
entry with a non-200 status is skipped, and the remaining entries
append their rows in order. -/
def fetch_greenhouse
    (entries : List ((String × String) × Except String (Nat × List GhJob))) :
    List Job :=
  entries.foldl
    (fun acc e =>
      match e with
      | (_, Except.error _) => acc
      | ((slug, name), Except.ok (status, js)) =>
        if status ≠ 200 then acc else acc ++ ghEntryJobs slug name js)
    []

/-! ## Theorems -/

/-- Hexdigest of SHA-256 always has 64 characters. -/
theorem sha256hex_length (m : List Nat) : (sha256hex m).length = 64 := by
  simp [sha256hex, word8hex]

/-- C2: for every URL string, the identity function is deterministic and
pure (equal URLs give equal identities, the result depends only on the
URL), and the returned identity has the fixed length 16. -/
theorem make_id_deterministic_fixed_length (u v : String) :
    (u = v → _make_id u = _make_id v) ∧ (_make_id u).length = 16 := by
  refine ⟨fun h => by rw [h], ?_⟩
  simp [_make_id, String.length_mk, List.length_take, sha256hex_length]

/-- C2 witness: the identity of a concrete URL agrees with itself and
has length 16. -/
theorem make_id_witness :
    (_make_id "https://web3.career/marketing-jobs" =
      _make_id "https://web3.career/marketing-jobs") ∧
    (_make_id "https://web3.career/marketing-jobs").length = 16 :=
  ⟨(make_id_deterministic_fixed_length "https://web3.career/marketing-jobs"
      "https://web3.career/marketing-jobs").1 rfl,
   (make_id_deterministic_fixed_length "https://web3.career/marketing-jobs"
      "https://web3.career/marketing-jobs").2⟩

/-- Soundness of the last-occurrence split: a successful split
decomposes the input. -/
theorem rsplitOnceAux_eq (sep : List Char) :
    ∀ l a b, rsplitOnceAux sep l = some (a, b) → l = a ++ sep ++ b := by
  intro l
  induction l with
  | nil => intro a b h; simp [rsplitOnceAux] at h
  | cons c t ih =>
    intro a b h
    rw [rsplitOnceAux] at h
    cases hrec : rsplitOnceAux sep t with
    | some p =>
      obtain ⟨a0, b0⟩ := p
      rw [hrec] at h
      simp at h
      obtain ⟨ha, hb⟩ := h
      have := ih a0 b0 hrec
      subst ha hb
      simp [this]
    | none =>
      rw [hrec] at h
      by_cases hp : sep.isPrefixOf (c :: t)
      · simp [hp] at h
        obtain ⟨ha, hb⟩ := h
        have hpre : sep <+: c :: t := List.isPrefixOf_iff_prefix.mp hp
        obtain ⟨s, hs⟩ := hpre
        subst ha
        rw [← hb, ← hs]
        simp [List.drop_left]
      · simp [hp] at h

/-- Completeness of the last-occurrence split: when a decomposition
exists, the split succeeds. -/
theorem rsplitOnceAux_ne_none (sep : List Char) (hsep : sep ≠ []) :
    ∀ a b, rsplitOnceAux sep (a ++ sep ++ b) ≠ none := by
  intro a
  induction a with
  | nil =>
    intro b
    obtain ⟨s, st, rfl⟩ : ∃ s st, sep = s :: st := by
      cases sep with
      | nil => exact absurd rfl hsep
      | cons s st => exact ⟨s, st, rfl⟩
    simp only [List.nil_append, List.cons_append]
    rw [rsplitOnceAux]
    cases hrec : rsplitOnceAux (s :: st) (st ++ b) with
    | some p => simp
    | none =>
      have hp : (s :: st).isPrefixOf (s :: (st ++ b)) := by
        rw [List.isPrefixOf_iff_prefix]
        exact ⟨b, by simp⟩
      simp [hp]
  | cons c a2 ih =>
    intro b
    simp only [List.cons_append]
    rw [rsplitOnceAux]
    cases hrec : rsplitOnceAux sep (a2 ++ sep ++ b) with
    | some p => cases p; simp
    | none => exact absurd hrec (ih b)

/-- Minimality of the last-occurrence split: among all decompositions,
the returned suffix is shortest, so the split is at the last
occurrence. -/
theorem rsplitOnceAux_min (sep : List Char) (hsep : sep ≠ []) :
    ∀ l a b, rsplitOnceAux sep l = some (a, b) →
      ∀ a2 b2, l = a2 ++ sep ++ b2 → b.length ≤ b2.length := by
  intro l
  induction l with
  | nil => intro a b h; simp [rsplitOnceAux] at h
  | cons c t ih =>
    intro a b h a2 b2 hdec
    rw [rsplitOnceAux] at h
    cases hrec : rsplitOnceAux sep t with
    | some p =>
      obtain ⟨a0, b0⟩ := p
      rw [hrec] at h
      simp at h
      obtain ⟨ha, hb⟩ := h
      subst hb
      cases a2 with
      | nil =>
        have hsound := rsplitOnceAux_eq sep t a0 b0 hrec
        have h1 : (c :: t).length = ([] ++ sep ++ b2).length := by rw [hdec]
        have h2 : t.length = (a0 ++ sep ++ b0).length := by rw [← hsound]
        simp [List.length_append] at h1 h2
        omega
      | cons c2 a2t =>
        simp at hdec
        have ht : t = a2t ++ sep ++ b2 := by
          rw [List.append_assoc]; exact hdec.2
        exact ih a0 b0 hrec a2t b2 ht
    | none =>
      rw [hrec] at h
      by_cases hp : sep.isPrefixOf (c :: t)
      · simp [hp] at h
        obtain ⟨ha, hb⟩ := h
        cases a2 with
        | nil =>
          have h1 : (c :: t).length = ([] ++ sep ++ b2).length := by rw [hdec]
          have h2 : b.length = (c :: t).length - sep.length := by
            rw [← hb]; simp [List.length_drop]
          simp only [List.length_append, List.length_cons, List.nil_append,
            List.length_nil] at h1 h2
          omega
        | cons c2 a2t =>
          have ht : t = a2t ++ sep ++ b2 := by
            have hd2 := hdec
            simp at hd2
            rw [List.append_assoc]; exact hd2.2
          exact absurd (ht ▸ hrec) (rsplitOnceAux_ne_none sep hsep a2t b2)
      · simp [hp] at h

/-- C9: the title/company split uses the last occurrence of the
separator: when the separator occurs, the part before the last
occurrence (stripped) is the title and the part after (stripped) is the
company; when it does not occur, the whole stripped string is the title
and the company is empty; concretely, a company name containing the
separator still splits at the last occurrence. -/
theorem split_title_company_last_sep :
    (∀ (raw : String) (a b : List Char),
        unescape raw.toList = a ++ " at ".toList ++ b →
        ∃ a2 b2, unescape raw.toList = a2 ++ " at ".toList ++ b2 ∧
          b2.length ≤ b.length ∧
          _split_title_company raw = (String.mk (pyStrip a2), String.mk (pyStrip b2))) ∧
    (∀ raw : String,
        (¬ ∃ a b : List Char, unescape raw.toList = a ++ " at ".toList ++ b) →
        _split_title_company raw = (String.mk (pyStrip (unescape raw.toList)), "")) ∧
    _split_title_company "Marketing at Scale at Acme" = ("Marketing at Scale", "Acme") := by
  refine ⟨?_, ?_, by decide⟩
  · intro raw a b hdec
    cases hsplit : rsplitOnceAux " at ".toList (unescape raw.toList) with
    | none =>
      exact absurd (hdec ▸ hsplit)
        (rsplitOnceAux_ne_none " at ".toList (by decide) a b)
    | some p =>
      obtain ⟨a2, b2⟩ := p
      refine ⟨a2, b2, rsplitOnceAux_eq _ _ _ _ hsplit,
        rsplitOnceAux_min _ (by decide) _ _ _ hsplit a b hdec, ?_⟩
      simp only [_split_title_company]
      rw [hsplit]
  · intro raw hno
    cases hsplit : rsplitOnceAux " at ".toList (unescape raw.toList) with
    | none =>
      simp only [_split_title_company]
      rw [hsplit]
    | some p =>
      obtain ⟨a2, b2⟩ := p
      exact absurd ⟨a2, b2, rsplitOnceAux_eq _ _ _ _ hsplit⟩ hno

/-- C9 witness: the documented concrete split, obtained by applying the
splitting theorem to an explicit decomposition at the first separator
occurrence. -/
theorem split_title_company_witness :
    ∃ a2 b2, unescape "Marketing at Scale at Acme".toList =
        a2 ++ " at ".toList ++ b2 ∧
      b2.length ≤ "Scale at Acme".toList.length ∧
      _split_title_company "Marketing at Scale at Acme" =
        (String.mk (pyStrip a2), String.mk (pyStrip b2)) :=
  split_title_company_last_sep.1 "Marketing at Scale at Acme"
    "Marketing".toList "Scale at Acme".toList (by decide)

/-- Membership reading of the Boolean list-containment test. -/
theorem contains_mem_iff {α : Type} [BEq α] [LawfulBEq α] (l : List α) (a : α) :
    l.contains a = true ↔ a ∈ l :=
  List.elem_iff

/-- The one step of the mark_seen fold. -/
def markStep (now : String) (acc : List SeenRow) (j : Job) : List SeenRow :=
  if (ledgerIds acc).contains j.id then acc
  else acc ++ [⟨j.id, j.title, j.url, now⟩]

/-- The mark_seen loop is the fold of its step. -/
theorem mark_seen_eq_fold (t : List SeenRow) (jobs : List Job) (now : String) :
    mark_seen t jobs now = jobs.foldl (markStep now) t := by
  cases jobs <;> rfl

/-- Identities present after the mark_seen fold: the old ones plus the
ids of the processed jobs. -/
theorem mem_ledgerIds_fold (now : String) :
    ∀ (jobs : List Job) (t : List SeenRow) (s : String),
      s ∈ ledgerIds (jobs.foldl (markStep now) t) ↔
        s ∈ ledgerIds t ∨ s ∈ jobs.map Job.id := by
  intro jobs
  induction jobs with
  | nil => intro t s; simp
  | cons j rest ih =>
    intro t s
    simp only [List.foldl_cons, List.map_cons, List.mem_cons]
    by_cases hc : (ledgerIds t).contains j.id = true
    · rw [markStep, if_pos hc, ih]
      have hj : j.id ∈ ledgerIds t := (contains_mem_iff _ _).mp hc
      constructor
      · rintro (h | h)
        · exact Or.inl h
        · exact Or.inr (Or.inr h)
      · rintro (h | h | h)
        · exact Or.inl h
        · exact Or.inl (h ▸ hj)
        · exact Or.inr h
    · rw [markStep, if_neg hc, ih]
      simp only [ledgerIds, List.map_append, List.map_cons, List.map_nil,
        List.mem_append, List.mem_cons, List.not_mem_nil, or_false]
      tauto

/-- Identities present after mark_seen. -/
theorem mem_ledgerIds_mark_seen (t : List SeenRow) (P : List Job) (now : String)
    (s : String) :
    s ∈ ledgerIds (mark_seen t P now) ↔ s ∈ ledgerIds t ∨ s ∈ P.map Job.id := by
  rw [mark_seen_eq_fold]; exact mem_ledgerIds_fold now P t s

/-- Boolean form of the previous lemma. -/
theorem contains_ledgerIds_mark_seen (t : List SeenRow) (P : List Job)
    (now : String) (s : String) :
    (ledgerIds (mark_seen t P now)).contains s =
      ((ledgerIds t).contains s || (P.map Job.id).contains s) := by
  apply Bool.coe_iff_coe.mp
  rw [contains_mem_iff, mem_ledgerIds_mark_seen]
  simp [Bool.or_eq_true, contains_mem_iff]

/-- The bulk-query restriction of filter_unseen does not change the
result: filtering against the ids selected among the candidates equals
filtering against the whole table. -/
theorem filter_unseen_eq (t : List SeenRow) (jobs : List Job) :
    filter_unseen t jobs = jobs.filter (fun j => !((ledgerIds t).contains j.id)) := by
  cases jobs with
  | nil => rfl
  | cons j0 rest =>
    simp only [filter_unseen]
    apply List.filter_congr
    intro x hx
    have hmem : x.id ∈ (j0 :: rest).map Job.id := List.mem_map_of_mem _ hx
    congr 1
    apply Bool.coe_iff_coe.mp
    rw [contains_mem_iff, contains_mem_iff, List.mem_filter]
    have hc : ((j0 :: rest).map Job.id).contains x.id = true :=
      (contains_mem_iff _ _).mpr hmem
    exact ⟨fun h => h.1, fun h => ⟨h, hc⟩⟩

/-- C3: filter_unseen returns exactly the sub-list of the given postings
whose identities are not in the ledger; after mark_seen of a list, the
unseen subset of that list is empty; and for any list of candidates, the
unseen subset after marking excludes exactly the candidates whose
identity matches a marked posting. -/
theorem filter_unseen_spec (t : List SeenRow) (P : List Job) (now : String)
    (Q : List Job) :
    filter_unseen t P = P.filter (fun j => !((ledgerIds t).contains j.id)) ∧
    filter_unseen (mark_seen t P now) P = [] ∧
    filter_unseen (mark_seen t P now) Q =
      (filter_unseen t Q).filter (fun j => !((P.map Job.id).contains j.id)) := by
  refine ⟨filter_unseen_eq t P, ?_, ?_⟩
  · rw [filter_unseen_eq, List.filter_eq_nil_iff]
    intro j hj
    have : j.id ∈ ledgerIds (mark_seen t P now) :=
      (mem_ledgerIds_mark_seen t P now j.id).mpr
        (Or.inr (List.mem_map_of_mem _ hj))
    simp [contains_ledgerIds_mark_seen, (contains_mem_iff _ _).mpr, this]
  · rw [filter_unseen_eq, filter_unseen_eq, List.filter_filter]
    apply List.filter_congr
    intro x _
    rw [contains_ledgerIds_mark_seen]
    cases h1 : (ledgerIds t).contains x.id <;>
      cases h2 : (P.map Job.id).contains x.id <;> rfl

/-- A mark_seen fold over postings whose identities are all present
already is the identity. -/
theorem fold_markStep_fixed (now : String) :
    ∀ (P : List Job) (acc : List SeenRow),
      (∀ j ∈ P, j.id ∈ ledgerIds acc) → P.foldl (markStep now) acc = acc := by
  intro P
  induction P with
  | nil => intro acc _; rfl
  | cons j rest ih =>
    intro acc h
    have hc : (ledgerIds acc).contains j.id = true :=
      (contains_mem_iff _ _).mpr (h j (by simp))
    rw [List.foldl_cons]
    have hstep : markStep now acc j = acc := by rw [markStep, if_pos hc]
    rw [hstep]
    exact ih acc (fun x hx => h x (List.mem_cons_of_mem _ hx))

/-- The mark_seen fold never creates a duplicate identity row. -/
theorem fold_markStep_nodup (now : String) :
    ∀ (P : List Job) (acc : List SeenRow),
      (ledgerIds acc).Nodup → (ledgerIds (P.foldl (markStep now) acc)).Nodup := by
  intro P
  induction P with
  | nil => intro acc h; exact h
  | cons j rest ih =>
    intro acc h
    rw [List.foldl_cons]
    by_cases hc : (ledgerIds acc).contains j.id = true
    · have hstep : markStep now acc j = acc := by rw [markStep, if_pos hc]
      rw [hstep]; exact ih acc h
    · have hstep : markStep now acc j = acc ++ [⟨j.id, j.title, j.url, now⟩] := by
        rw [markStep, if_neg hc]
      rw [hstep]
      apply ih
      have hnm : j.id ∉ ledgerIds acc := fun hm => hc ((contains_mem_iff _ _).mpr hm)
      have hids : ledgerIds (acc ++ [⟨j.id, j.title, j.url, now⟩]) =
          ledgerIds acc ++ [j.id] := by simp [ledgerIds]
      rw [hids, List.nodup_append]
      refine ⟨h, List.nodup_singleton _, ?_⟩
      intro a ha hb
      simp at hb
      exact hnm (hb ▸ ha)

/-- C4: mark_seen is idempotent (marking the same list twice leaves the
ledger as after one call), inserting an identity already present is a
no-op, and no duplicate identity row is ever created. -/
theorem mark_seen_idempotent (t : List SeenRow) (P : List Job) (n1 n2 : String) :
    mark_seen (mark_seen t P n1) P n2 = mark_seen t P n1 ∧
    (∀ j : Job, j.id ∈ ledgerIds t → mark_seen t [j] n2 = t) ∧
    ((ledgerIds t).Nodup → (ledgerIds (mark_seen t P n1)).Nodup) := by
  refine ⟨?_, ?_, ?_⟩
  · have h1 : ∀ j ∈ P, j.id ∈ ledgerIds (mark_seen t P n1) := fun j hj =>
      (mem_ledgerIds_mark_seen t P n1 j.id).mpr (Or.inr (List.mem_map_of_mem _ hj))
    calc mark_seen (mark_seen t P n1) P n2
        = P.foldl (markStep n2) (mark_seen t P n1) := mark_seen_eq_fold _ _ _
      _ = mark_seen t P n1 := fold_markStep_fixed n2 P _ h1
  · intro j hj
    have hc : (ledgerIds t).contains j.id = true := (contains_mem_iff _ _).mpr hj
    show List.foldl (markStep n2) t [j] = t
    simp [markStep, hc, hj]
  · intro h
    rw [mark_seen_eq_fold]
    exact fold_markStep_nodup n1 P t h

/-- A successful apply_filters run returns a sublist of its input. -/
theorem apply_filters_ok_sublist (roles : List String) (locType : String)
    (preferred : List String) (now : Int) :
    ∀ (jobs out : List Job),
      apply_filters roles locType preferred now jobs = Except.ok out →
      out.Sublist jobs := by
  intro jobs
  induction jobs with
  | nil =>
    intro out h
    simp [apply_filters] at h
    simp [← h]
  | cons j rest ih =>
    intro out h
    rw [apply_filters] at h
    by_cases h1 : ¬ _matches_include roles j.title
    · rw [if_pos h1] at h
      exact (ih out h).cons j
    rw [if_neg h1] at h
    by_cases h2 : _is_excluded_title roles j.title
    · rw [if_pos h2] at h
      exact (ih out h).cons j
    rw [if_neg h2] at h
    by_cases h3 : ¬ _is_location_allowed locType preferred j
    · rw [if_pos h3] at h
      exact (ih out h).cons j
    rw [if_neg h3] at h
    cases hage : _is_too_old j now with
    | error e => rw [hage] at h; exact absurd h (by simp)
    | ok b =>
      rw [hage] at h
      cases b with
      | true => exact (ih out h).cons j
      | false =>
        cases hrest : apply_filters roles locType preferred now rest with
        | error e => rw [hrest] at h; exact absurd h (by simp [Except.map])
        | ok o =>
          rw [hrest] at h
          simp [Except.map] at h
          rw [← h]
          exact (ih o hrest).cons₂ j

/-- C10: both narrowing stages return an order-preserving subsequence of
their input: every returned record is an unchanged element of the input,
order is preserved, and no record occurs more often in the output than
in the input. -/
theorem narrowing_stages_sublist (roles : List String) (locType : String)
    (preferred : List String) (now : Int) (t : List SeenRow)
    (jobs out : List Job) :
    (apply_filters roles locType preferred now jobs = Except.ok out →
      out.Sublist jobs ∧ (∀ j, List.count j out ≤ List.count j jobs) ∧
        ∀ j ∈ out, j ∈ jobs) ∧
    ((filter_unseen t jobs).Sublist jobs ∧
      (∀ j, List.count j (filter_unseen t jobs) ≤ List.count j jobs) ∧
      ∀ j ∈ filter_unseen t jobs, j ∈ jobs) := by
  constructor
  · intro h
    have hs := apply_filters_ok_sublist roles locType preferred now jobs out h
    exact ⟨hs, fun j => hs.count_le j, fun j hj => hs.subset hj⟩
  · have hs : (filter_unseen t jobs).Sublist jobs := by
      rw [filter_unseen_eq]; exact List.filter_sublist jobs
    exact ⟨hs, fun j => hs.count_le j, fun j hj => hs.subset hj⟩

/-- The Boolean substring test decides list infixhood. -/
theorem isSub_iff (n : List Char) : ∀ h : List Char, isSub n h = true ↔ n <:+: h := by
  intro h
  induction h with
  | nil =>
    simp [isSub, List.isPrefixOf_iff_prefix]
  | cons c t ih =>
    rw [isSub, Bool.or_eq_true, List.isPrefixOf_iff_prefix, ih,
      List.infix_cons_iff]

/-- The exclusion loop holds exactly when some registered phrase occurs
in the title and is not waived by the product-marketing override. -/
theorem isExcludedGo_iff (t : List Char) :
    ∀ ps : List String,
      isExcludedGo t ps = true ↔
        ∃ p ∈ ps, p.toList <:+: t ∧
          ¬(p = "product manager" ∧
            ("product marketing".toList <:+: t ∨ "growth marketing".toList <:+: t)) := by
  intro ps
  induction ps with
  | nil => simp [isExcludedGo]
  | cons p rest ih =>
    rw [isExcludedGo]
    by_cases h1 : isSub p.toList t = true
    · rw [if_pos h1]
      by_cases h2 : ((p == "product manager") &&
          (isSub "product marketing".toList t || isSub "growth marketing".toList t)) = true
      · rw [if_pos h2]
        rw [ih]
        simp only [Bool.and_eq_true, beq_iff_eq, Bool.or_eq_true, isSub_iff] at h2
        constructor
        · rintro ⟨q, hq, hinf, hover⟩
          exact ⟨q, List.mem_cons_of_mem _ hq, hinf, hover⟩
        · rintro ⟨q, hq, hinf, hover⟩
          rcases List.mem_cons.mp hq with rfl | hq2
          · exact absurd ⟨h2.1, h2.2⟩ hover
          · exact ⟨q, hq2, hinf, hover⟩
      · rw [if_neg h2]
        simp only [Bool.and_eq_true, beq_iff_eq, Bool.or_eq_true, isSub_iff,
          not_and, not_or] at h2
        constructor
        · intro _
          refine ⟨p, List.mem_cons_self p rest, (isSub_iff _ _).mp h1, ?_⟩
          rintro ⟨hp, hov⟩
          rcases hov with hb | hc
          · exact (h2 hp).1 hb
          · exact (h2 hp).2 hc
        · intro _; rfl
    · rw [if_neg h1]
      rw [ih]
      constructor
      · rintro ⟨q, hq, hinf, hover⟩
        exact ⟨q, List.mem_cons_of_mem _ hq, hinf, hover⟩
      · rintro ⟨q, hq, hinf, hover⟩
        rcases List.mem_cons.mp hq with rfl | hq2
        · exact absurd ((isSub_iff _ _).mpr hinf) h1
        · exact ⟨q, hq2, hinf, hover⟩

/-- The role stage of apply_filters: a title is kept when it matches an
include keyword and is not excluded. -/
def roleKeep (roles : List String) (title : String) : Bool :=
  _matches_include roles title && !(_is_excluded_title roles title)

/-- C6: a title is kept by the role filter exactly when its decoded
lower-cased form contains an include keyword of the selected roles and
every matching exclusion phrase is waived by the product-marketing
override; concretely, for the marketing role, the compound marketing
title passes and the engineering title is rejected (it matches no
include keyword and matches the software-engineer exclusion). -/
theorem role_filter_spec :
    (∀ (roles : List String) (title : String),
      roleKeep roles title = true ↔
        ((∃ kw ∈ _build_include_keywords roles, kw.toList <:+: normText title) ∧
         ∀ p ∈ _build_exclude_phrases roles, p.toList <:+: normText title →
           p = "product manager" ∧
             ("product marketing".toList <:+: normText title ∨
              "growth marketing".toList <:+: normText title))) ∧
    roleKeep ["marketing"] "Senior Product Marketing Manager" = true ∧
    _matches_include ["marketing"] "Backend Software Engineer" = false ∧
    _is_excluded_title ["marketing"] "Backend Software Engineer" = true ∧
    roleKeep ["marketing"] "Backend Software Engineer" = false := by
  refine ⟨?_, by decide, by decide, by decide, by decide⟩
  intro roles title
  have hm : _matches_include roles title = true ↔
      ∃ kw ∈ _build_include_keywords roles, kw.toList <:+: normText title := by
    rw [_matches_include, List.any_eq_true]
    constructor
    · rintro ⟨kw, hkw, h⟩; exact ⟨kw, hkw, (isSub_iff _ _).mp h⟩
    · rintro ⟨kw, hkw, h⟩; exact ⟨kw, hkw, (isSub_iff _ _).mpr h⟩
  have he : _is_excluded_title roles title = true ↔
      ∃ p ∈ _build_exclude_phrases roles, p.toList <:+: normText title ∧
        ¬(p = "product manager" ∧
          ("product marketing".toList <:+: normText title ∨
           "growth marketing".toList <:+: normText title)) := by
    rw [_is_excluded_title]
    exact isExcludedGo_iff (normText title) (_build_exclude_phrases roles)
  rw [roleKeep, Bool.and_eq_true, hm]
  constructor
  · rintro ⟨h1, h2⟩
    refine ⟨h1, fun p hp hinf => ?_⟩
    by_contra hov
    have hexc := he.mpr ⟨p, hp, hinf, hov⟩
    rw [hexc] at h2
    exact absurd h2 (by decide)
  · rintro ⟨h1, h2⟩
    refine ⟨h1, ?_⟩
    cases hexc : _is_excluded_title roles title with
    | false => rfl
    | true =>
      obtain ⟨p, hp, hinf, hov⟩ := he.mp hexc
      exact absurd (h2 p hp hinf) hov

/-- C7: in remote mode an empty location passes, an on-site match is
rejected, a US-restriction match is rejected even when a remote keyword
also matches, and otherwise the location passes exactly when it matches
the remote allowlist; with the documented concrete locations. -/
theorem location_filter_remote_spec :
    (∀ (preferred : List String) (job : Job),
      _is_location_allowed "remote" preferred job = true ↔
        (normLoc job = [] ∨
          ((∀ p ∈ ONSITE_PATTERNS, ¬ p.toList <:+: normLoc job) ∧
           (∀ p ∈ US_RESTRICTED_PATTERNS, ¬ p.toList <:+: normLoc job) ∧
           (∃ kw ∈ _REMOTE_KEYWORDS, kw.toList <:+: normLoc job)))) ∧
    _is_location_allowed "remote" []
      { id := "", title := "", company := "", location := "Remote - USA",
        url := "", source := "" } = false ∧
    _is_location_allowed "remote" []
      { id := "", title := "", company := "", location := "Worldwide",
        url := "", source := "" } = true ∧
    _is_location_allowed "remote" []
      { id := "", title := "", company := "", location := "",
        url := "", source := "" } = true := by
  refine ⟨?_, by decide, by decide, by decide⟩
  intro preferred job
  rw [_is_location_allowed, if_neg (by decide : ¬(("remote" : String) = "any"))]
  by_cases hempty : normLoc job = []
  · rw [if_pos hempty]
    simp [hempty]
  · rw [if_neg hempty]
    by_cases hons : ONSITE_PATTERNS.any (fun p => isSub p.toList (normLoc job)) = true
    · rw [if_pos hons]
      simp only [List.any_eq_true, isSub_iff] at hons
      obtain ⟨p, hp, hinf⟩ := hons
      constructor
      · intro h; exact absurd h (by decide)
      · rintro (h | ⟨hno, _, _⟩)
        · exact absurd h hempty
        · exact absurd hinf (hno p hp)
    · rw [if_neg hons, if_pos (rfl : ("remote" : String) = "remote")]
      by_cases hus : US_RESTRICTED_PATTERNS.any (fun p => isSub p.toList (normLoc job)) = true
      · rw [if_pos hus]
        simp only [List.any_eq_true, isSub_iff] at hus
        obtain ⟨p, hp, hinf⟩ := hus
        constructor
        · intro h; exact absurd h (by decide)
        · rintro (h | ⟨_, hnus, _⟩)
          · exact absurd h hempty
          · exact absurd hinf (hnus p hp)
      · rw [if_neg hus]
        simp only [List.any_eq_true, isSub_iff, not_exists, not_and] at hons hus
        rw [List.any_eq_true]
        constructor
        · rintro ⟨kw, hkw, hinf⟩
          exact Or.inr ⟨fun p hp => hons p hp, fun p hp => hus p hp,
            ⟨kw, hkw, (isSub_iff _ _).mp hinf⟩⟩
        · rintro (h | ⟨_, _, kw, hkw, hinf⟩)
          · exact absurd h hempty
          · exact ⟨kw, hkw, (isSub_iff _ _).mpr hinf⟩

/-- C8: the age check is fail-open (an unparseable posted value keeps
the posting, e.g. TBD), and an aware parsed date drops the posting
exactly when it is older than 45 days relative to now; but a
mail-header date without a timezone parses to a NAIVE datetime
(contradicting the docstring of _parse_posted_date, which promises a
UTC-aware datetime or None), and comparing it against the aware cutoff
raises a TypeError instead of keeping or dropping the posting. -/
theorem age_cutoff_eval :
    (∀ (j : Job) (now : Int), _parse_posted_date j.posted = none →
      _is_too_old j now = Except.ok false) ∧
    (∀ (j : Job) (now ms : Int), _parse_posted_date j.posted = some (ms, true) →
      (_is_too_old j now = Except.ok true ↔ ms < now - 45 * 86400000)) ∧
    _parse_posted_date "TBD" = none ∧
    _is_too_old
      { id := "", title := "", company := "", location := "", url := "",
        source := "", posted := "TBD" } 1760227200000 = Except.ok false ∧
    _is_too_old
      { id := "", title := "", company := "", location := "", url := "",
        source := "", posted := "1755907200" } 1760227200000 = Except.ok true ∧
    _is_too_old
      { id := "", title := "", company := "", location := "", url := "",
        source := "", posted := "Thu, 19 Feb 2026 06:32:03" } 1760227200000 =
      Except.error "TypeError: cannot compare offset-naive and offset-aware datetimes" := by
  refine ⟨?_, ?_, by decide, by rfl, by rfl, by rfl⟩
  · intro j now h
    rw [_is_too_old, h]
  · intro j now ms h
    rw [_is_too_old, h]
    simp [MAX_AGE_DAYS]

/-- The per-board accumulation of fetch_web3career only appends. -/
theorem w3cAdd_extends (js : List Job) :
    ∀ st : List Job × List String, ∃ u, (w3cAdd st js).1 = st.1 ++ u := by
  induction js with
  | nil => intro st; exact ⟨[], by simp [w3cAdd]⟩
  | cons j rest ih =>
    intro st
    rw [w3cAdd, List.foldl_cons, ← w3cAdd]
    by_cases hc : st.2.contains j.id = true
    · have hstep : w3cStep st j = st := by rw [w3cStep, if_pos hc]
      rw [hstep]
      exact ih st
    · have hstep : w3cStep st j = (st.1 ++ [j], j.id :: st.2) := by
        rw [w3cStep, if_neg hc]
      rw [hstep]
      obtain ⟨u, hu⟩ := ih (st.1 ++ [j], j.id :: st.2)
      exact ⟨[j] ++ u, by rw [hu, List.append_assoc]⟩

/-- The page loop of fetch_web3career splits over list append. -/
theorem w3cGo_append (rs1 : List (Except String (List Job))) :
    ∀ (rs2 : List (Except String (List Job))) (st : List Job × List String),
      w3cGo (rs1 ++ rs2) st = w3cGo rs2 (w3cGo rs1 st) := by
  induction rs1 with
  | nil => intro rs2 st; rfl
  | cons r rest ih =>
    intro rs2 st
    cases r with
    | error e => simp only [List.cons_append, w3cGo]; exact ih rs2 st
    | ok js => simp only [List.cons_append, w3cGo]; exact ih rs2 (w3cAdd st js)

/-- The page loop only appends to the accumulated jobs. -/
theorem w3cGo_extends :
    ∀ (rs : List (Except String (List Job))) (st : List Job × List String),
      ∃ u, (w3cGo rs st).1 = st.1 ++ u := by
  intro rs
  induction rs with
  | nil => intro st; exact ⟨[], by simp [w3cGo]⟩
  | cons r rest ih =>
    intro st
    cases r with
    | error e => rw [w3cGo]; exact ih st
    | ok js =>
      rw [w3cGo]
      obtain ⟨u1, hu1⟩ := w3cAdd_extends js st
      obtain ⟨u2, hu2⟩ := ih (w3cAdd st js)
      exact ⟨u1 ++ u2, by rw [hu2, hu1, List.append_assoc]⟩

/-- The greenhouse entry fold only appends. -/
theorem ghFold_extends :
    ∀ (es : List ((String × String) × Except String (Nat × List GhJob)))
      (acc : List Job),
      ∃ u, es.foldl
        (fun acc e =>
          match e with
          | (_, Except.error _) => acc
          | ((slug, name), Except.ok (status, js)) =>
            if status ≠ 200 then acc else acc ++ ghEntryJobs slug name js)
        acc = acc ++ u := by
  intro es
  induction es with
  | nil => intro acc; exact ⟨[], by simp⟩
  | cons e rest ih =>
    intro acc
    obtain ⟨⟨slug, name⟩, r⟩ := e
    cases r with
    | error msg =>
      rw [List.foldl_cons]
      exact ih acc
    | ok p =>
      obtain ⟨status, js⟩ := p
      rw [List.foldl_cons]
      by_cases hs : status ≠ 200
      · simp only [if_pos hs]
        exact ih acc
      · simp only [if_neg hs]
        obtain ⟨u, hu⟩ := ih (acc ++ ghEntryJobs slug name js)
        exact ⟨ghEntryJobs slug name js ++ u, by rw [hu, List.append_assoc]⟩

/-- C5: a page or registry-entry failure inside a fan-out adapter is
caught and contributes nothing: an erroring web3.career page is
equivalent to its absence and the pages already fetched keep their
results; an erroring or non-200 Greenhouse registry entry is equivalent
to its absence and the earlier entries keep their results. -/
theorem adapter_failure_isolation :
    (∀ (rs1 : List (Except String (List Job))) (e : String)
        (rs2 : List (Except String (List Job))),
      fetch_web3career (rs1 ++ Except.error e :: rs2) =
        fetch_web3career (rs1 ++ rs2)) ∧
    (∀ (rs1 : List (Except String (List Job))) (e : String)
        (rs2 : List (Except String (List Job))),
      ∃ tail, fetch_web3career (rs1 ++ Except.error e :: rs2) =
        fetch_web3career rs1 ++ tail) ∧
    (∀ (es1 : List ((String × String) × Except String (Nat × List GhJob)))
        (m : String × String) (e : String)
        (es2 : List ((String × String) × Except String (Nat × List GhJob))),
      fetch_greenhouse (es1 ++ (m, Except.error e) :: es2) =
        fetch_greenhouse (es1 ++ es2)) ∧
    (∀ (es1 : List ((String × String) × Except String (Nat × List GhJob)))
        (m : String × String) (status : Nat) (js : List GhJob)
        (es2 : List ((String × String) × Except String (Nat × List GhJob))),
      status ≠ 200 →
      fetch_greenhouse (es1 ++ (m, Except.ok (status, js)) :: es2) =
        fetch_greenhouse (es1 ++ es2)) ∧
    (∀ (es1 : List ((String × String) × Except String (Nat × List GhJob)))
        (m : String × String) (e : String)
        (es2 : List ((String × String) × Except String (Nat × List GhJob))),
      ∃ tail, fetch_greenhouse (es1 ++ (m, Except.error e) :: es2) =
        fetch_greenhouse es1 ++ tail) := by
  refine ⟨?_, ?_, ?_, ?_, ?_⟩
  · intro rs1 e rs2
    rw [fetch_web3career, fetch_web3career, w3cGo_append, w3cGo_append]
    rfl
  · intro rs1 e rs2
    rw [fetch_web3career, fetch_web3career, w3cGo_append]
    have hskip : w3cGo (Except.error e :: rs2) (w3cGo rs1 ([], [])) =
        w3cGo rs2 (w3cGo rs1 ([], [])) := rfl
    rw [hskip]
    exact w3cGo_extends rs2 (w3cGo rs1 ([], []))
  · intro es1 m e es2
    obtain ⟨slug, name⟩ := m
    rw [fetch_greenhouse, fetch_greenhouse, List.foldl_append, List.foldl_append]
    rfl
  · intro es1 m status js es2 hs
    obtain ⟨slug, name⟩ := m
    rw [fetch_greenhouse, fetch_greenhouse, List.foldl_append, List.foldl_append,
      List.foldl_cons]
    simp only [if_pos hs]
  · intro es1 m e es2
    obtain ⟨slug, name⟩ := m
    rw [fetch_greenhouse, List.foldl_append, List.foldl_cons]
    exact ghFold_extends es2 _

/-- Distinctness relation the aggregation output satisfies pairwise:
different identities and different duplicate keys. -/
def jobDistinct (p q : Job) : Prop :=
  p.id ≠ q.id ∧ _title_company_key p ≠ _title_company_key q

/-- The distinctness relation is symmetric. -/
theorem jobDistinct_symm : Symmetric jobDistinct :=
  fun _ _ h => ⟨Ne.symm h.1, Ne.symm h.2⟩

/-- The dedup fold never drops a record already appended. -/
theorem foldl_dedup_mem_mono :
    ∀ (js acc : List Job) (x : Job), x ∈ acc → x ∈ js.foldl specDedupStep acc := by
  intro js
  induction js with
  | nil => intro acc x h; exact h
  | cons j rest ih =>
    intro acc x h
    rw [List.foldl_cons]
    apply ih
    rw [specDedupStep]
    split
    · exact h
    · exact List.mem_append_left _ h

/-- Every record of the dedup fold comes from the accumulator or the
input. -/
theorem foldl_dedup_mem_sub :
    ∀ (js acc : List Job) (x : Job),
      x ∈ js.foldl specDedupStep acc → x ∈ acc ∨ x ∈ js := by
  intro js
  induction js with
  | nil => intro acc x h; exact Or.inl h
  | cons j rest ih =>
    intro acc x h
    rw [List.foldl_cons] at h
    rcases ih _ x h with hx | hx
    · rw [specDedupStep] at hx
      split at hx
      · exact Or.inl hx
      · rcases List.mem_append.mp hx with hx | hx
        · exact Or.inl hx
        · simp at hx; exact Or.inr (by simp [hx])
    · exact Or.inr (List.mem_cons_of_mem _ hx)

/-- The seen-id and seen-key sets of the fetch_all loop are exactly the
images of the appended records, so the loop computes the dedup fold. -/
theorem fetchAllGo_eq_foldl :
    ∀ (js acc : List Job) (ids : List String) (keys : List (List Char)),
      (∀ s, s ∈ ids ↔ ∃ x ∈ acc, x.id = s) →
      (∀ k, k ∈ keys ↔ ∃ x ∈ acc, _title_company_key x = k) →
      fetchAllGo js acc ids keys = js.foldl specDedupStep acc := by
  intro js
  induction js with
  | nil => intro acc ids keys _ _; rfl
  | cons j rest ih =>
    intro acc ids keys hids hkeys
    rw [fetchAllGo, List.foldl_cons]
    by_cases hc : j.id ∈ ids ∨ _title_company_key j ∈ keys
    · rw [if_pos hc]
      have hstep : specDedupStep acc j = acc := by
        rw [specDedupStep, if_pos ?_]
        rcases hc with h | h
        · obtain ⟨x, hx, hxe⟩ := (hids _).mp h
          exact ⟨x, hx, Or.inl hxe⟩
        · obtain ⟨x, hx, hxe⟩ := (hkeys _).mp h
          exact ⟨x, hx, Or.inr hxe⟩
      rw [hstep]
      exact ih acc ids keys hids hkeys
    · rw [if_neg hc]
      push_neg at hc
      have hstep : specDedupStep acc j = acc ++ [j] := by
        rw [specDedupStep, if_neg ?_]
        rintro ⟨x, hx, he | he⟩
        · exact hc.1 ((hids _).mpr ⟨x, hx, he⟩)
        · exact hc.2 ((hkeys _).mpr ⟨x, hx, he⟩)
      rw [hstep]
      apply ih
      · intro s
        rw [List.mem_cons, hids s]
        constructor
        · rintro (rfl | ⟨x, hx, he⟩)
          · exact ⟨j, by simp, rfl⟩
          · exact ⟨x, by simp [hx], he⟩
        · rintro ⟨x, hx, he⟩
          rcases List.mem_append.mp hx with hx2 | hx2
          · exact Or.inr ⟨x, hx2, he⟩
          · have hxj : x = j := by simpa using hx2
            subst hxj
            exact Or.inl he.symm
      · intro k
        rw [List.mem_cons, hkeys k]
        constructor
        · rintro (rfl | ⟨x, hx, he⟩)
          · exact ⟨j, by simp, rfl⟩
          · exact ⟨x, by simp [hx], he⟩
        · rintro ⟨x, hx, he⟩
          rcases List.mem_append.mp hx with hx2 | hx2
          · exact Or.inr ⟨x, hx2, he⟩
          · have hxj : x = j := by simpa using hx2
            subst hxj
            exact Or.inl he.symm

/-- fetch_all is the dedup fold over the concatenated board results. -/
theorem fetch_all_eq_foldl (boards : List (List Job)) :
    fetch_all boards = (boards.flatten).foldl specDedupStep [] := by
  rw [fetch_all]
  apply fetchAllGo_eq_foldl <;> intro s <;> simp

/-- The dedup fold keeps its accumulator pairwise distinct. -/
theorem foldl_dedup_pairwise :
    ∀ (js acc : List Job), acc.Pairwise jobDistinct →
      (js.foldl specDedupStep acc).Pairwise jobDistinct := by
  intro js
  induction js with
  | nil => intro acc h; exact h
  | cons j rest ih =>
    intro acc h
    rw [List.foldl_cons]
    apply ih
    by_cases hg : ∃ x ∈ acc, x.id = j.id ∨ _title_company_key x = _title_company_key j
    · rw [specDedupStep, if_pos hg]; exact h
    · rw [specDedupStep, if_neg hg]
      rw [List.pairwise_append]
      push_neg at hg
      refine ⟨h, List.pairwise_singleton _ _, ?_⟩
      intro x hx y hy
      simp at hy
      subst hy
      exact ⟨(hg x hx).1, (hg x hx).2⟩

/-- C1 (amended): aggregation appends a record iff both its identity and
its duplicate key are new among the records already appended (fetch_all
equals the novelty-dedup fold); the output has pairwise-distinct
identities and pairwise-distinct duplicate keys; and of two postings
with different identity but equal duplicate key, the earlier-ordered one
is retained and the later one dropped provided no record before the
earlier one shares its identity or duplicate key. -/
theorem fetch_all_dedup_amended :
    (∀ boards : List (List Job),
      fetch_all boards = (boards.flatten).foldl specDedupStep []) ∧
    (∀ boards : List (List Job), (fetch_all boards).Pairwise jobDistinct) ∧
    (∀ (boards : List (List Job)) (l1 l2 l3 : List Job) (a b : Job),
      boards.flatten = l1 ++ a :: (l2 ++ b :: l3) →
      (∀ x ∈ l1, x.id ≠ a.id ∧ _title_company_key x ≠ _title_company_key a) →
      a.id ≠ b.id → _title_company_key a = _title_company_key b →
      a ∈ fetch_all boards ∧ b ∉ fetch_all boards) := by
  refine ⟨fetch_all_eq_foldl, ?_, ?_⟩
  · intro boards
    rw [fetch_all_eq_foldl]
    exact foldl_dedup_pairwise _ [] List.Pairwise.nil
  · intro boards l1 l2 l3 a b hdec hfresh hid hkey
    have hsplit : fetch_all boards =
        (a :: (l2 ++ b :: l3)).foldl specDedupStep (l1.foldl specDedupStep []) := by
      rw [fetch_all_eq_foldl, hdec, List.foldl_append]
    have hacc1 : ∀ x ∈ l1.foldl specDedupStep [], x ∈ l1 := by
      intro x hx
      rcases foldl_dedup_mem_sub l1 [] x hx with hx2 | hx2
      · exact absurd hx2 (List.not_mem_nil x)
      · exact hx2
    have hstep : specDedupStep (l1.foldl specDedupStep []) a =
        l1.foldl specDedupStep [] ++ [a] := by
      rw [specDedupStep, if_neg ?_]
      rintro ⟨x, hx, he | he⟩
      · exact (hfresh x (hacc1 x hx)).1 he
      · exact (hfresh x (hacc1 x hx)).2 he
    have ha : a ∈ fetch_all boards := by
      rw [hsplit, List.foldl_cons, hstep]
      exact foldl_dedup_mem_mono _ _ a (by simp)
    refine ⟨ha, fun hb => ?_⟩
    have hpw : (fetch_all boards).Pairwise jobDistinct := by
      rw [fetch_all_eq_foldl]
      exact foldl_dedup_pairwise _ [] List.Pairwise.nil
    have hab : a ≠ b := fun h => hid (by rw [h])
    exact (hpw.forall jobDistinct_symm ha hb hab).2 hkey

/-- First record of the counterexample run: an earlier board lists the
same URL as the second record under a differently spelled company. -/
def cexX : Job :=
  { id := "h1", title := "Growth Lead", company := "Acme Inc",
    location := "", url := "https://x/1", source := "boardA" }

/-- Second record of the counterexample run: same identity as the first,
so it is dropped without registering its duplicate key. -/
def cexA : Job :=
  { id := "h1", title := "Growth Lead", company := "Acme",
    location := "", url := "https://x/1", source := "boardB" }

/-- Third record of the counterexample run: different URL and identity,
equal duplicate key to the second record. -/
def cexB : Job :=
  { id := "h2", title := "Growth Lead (Remote)", company := "Acme",
    location := "", url := "https://y/1", source := "boardC" }

/-- C1 counterexample: it is not true that of any two postings with
different url and identity but equal duplicate key the earlier-ordered
one survives: when an even earlier record shares the earlier posting's
identity (same URL) under a different duplicate key, the earlier posting
is dropped without registering its key and the later one survives. -/
theorem fetch_all_pair_counterexample :
    ¬ (∀ (boards : List (List Job)) (l1 l2 l3 : List Job) (a b : Job),
        boards.flatten = l1 ++ a :: (l2 ++ b :: l3) →
        a.url ≠ b.url → a.id ≠ b.id →
        _title_company_key a = _title_company_key b →
        a ∈ fetch_all boards ∧ b ∉ fetch_all boards) := by
  intro h
  have hpair := h [[cexX, cexA, cexB]] [cexX] [] [] cexA cexB (by decide)
    (by decide) (by decide) (by decide)
  exact absurd hpair.1 (by decide)

/-- C1 witness: the end-to-end scenario jobs, with the earlier-ordered
marketing posting retained and its cross-source duplicate dropped. -/
theorem fetch_all_dedup_witness :
    { id := "idA", title := "Growth Lead", company := "Acme",
      location := "Remote", url := "https://x/1", source := "boardA" : Job } ∈
      fetch_all
        [[{ id := "idA", title := "Growth Lead", company := "Acme",
            location := "Remote", url := "https://x/1", source := "boardA" }],
         [{ id := "idB", title := "Growth Lead", company := "Acme",
            location := "Remote", url := "https://y/1", source := "boardB" }],
         [{ id := "idC", title := "Backend Engineer", company := "Acme",
            location := "Remote", url := "https://z/1", source := "boardC" }]] ∧
    { id := "idB", title := "Growth Lead", company := "Acme",
      location := "Remote", url := "https://y/1", source := "boardB" : Job } ∉
      fetch_all
        [[{ id := "idA", title := "Growth Lead", company := "Acme",
            location := "Remote", url := "https://x/1", source := "boardA" }],
         [{ id := "idB", title := "Growth Lead", company := "Acme",
            location := "Remote", url := "https://y/1", source := "boardB" }],
         [{ id := "idC", title := "Backend Engineer", company := "Acme",
            location := "Remote", url := "https://z/1", source := "boardC" }]] :=
  fetch_all_dedup_amended.2.2
    [[{ id := "idA", title := "Growth Lead", company := "Acme",
        location := "Remote", url := "https://x/1", source := "boardA" }],
     [{ id := "idB", title := "Growth Lead", company := "Acme",
        location := "Remote", url := "https://y/1", source := "boardB" }],
     [{ id := "idC", title := "Backend Engineer", company := "Acme",
        location := "Remote", url := "https://z/1", source := "boardC" }]]
    []
    []
    [{ id := "idC", title := "Backend Engineer", company := "Acme",
       location := "Remote", url := "https://z/1", source := "boardC" }]
    { id := "idA", title := "Growth Lead", company := "Acme",
      location := "Remote", url := "https://x/1", source := "boardA" }
    { id := "idB", title := "Growth Lead", company := "Acme",
      location := "Remote", url := "https://y/1", source := "boardB" }
    (by decide) (by decide) (by decide) (by decide)
